import Mathlib

/-!
Verification development for the `convert_genesis.py` CSV-to-JSON converter.

The script reads four CSV part files (the first carrying the header row),
concatenates their rows, normalizes each row into an NFT record (lower-casing
the contract address), and writes the records as a pretty-printed JSON array.

Shallow embedding conventions:
  * a text file is modeled as its list of lines (`List String`);
  * a Python `str` value is a Lean `String`; the Python value `None` is
    modeled by `Option String` with `none` standing for `None`;
  * operations that can raise a Python exception return `Option`, with
    `none` meaning the run aborts at that point;
  * the bytes written to the output file are modeled as a `List Char`.
-/

namespace Genesis

/-! ## CSV parsing (model of the Python `csv` module, default dialect)

Records are parsed by the state machine of `csv.py`: delimiter `,`<!-- -->,
quote char `"`<!-- -->, doubled quotes inside a quoted field denote a literal
quote, and characters following a closing quote are appended to the field
(non-strict mode).  A blank line at a record boundary yields the empty
record `[]`<!-- -->.  When a line ends inside a quoted field the reader keeps
going: the line break becomes a `\n` character of the field and the next
physical line continues the same record, exactly as `csv.reader` merges
lines whenever a quoted field spans a line break. -/

/-- Parser states of the csv field state machine. -/
inductive CsvState where
  | startField
  | inField
  | inQuoted
  | quoteInQuoted
deriving DecidableEq, Repr

/-- Run the csv state machine over the characters of one physical line.
`cur` is the reversed current field, `acc` the fields finished so far;
the result is the state, current field and finished fields at the end of
the line. -/
def csvLine : List Char → CsvState → List Char → List String →
    CsvState × List Char × List String
  | [], st, cur, acc => (st, cur, acc)
  | c :: cs, CsvState.startField, cur, acc =>
    if c = '"' then csvLine cs CsvState.inQuoted cur acc
    else if c = ',' then csvLine cs CsvState.startField [] (acc ++ [⟨cur.reverse⟩])
    else csvLine cs CsvState.inField (c :: cur) acc
  | c :: cs, CsvState.inField, cur, acc =>
    if c = ',' then csvLine cs CsvState.startField [] (acc ++ [⟨cur.reverse⟩])
    else csvLine cs CsvState.inField (c :: cur) acc
  | c :: cs, CsvState.inQuoted, cur, acc =>
    if c = '"' then csvLine cs CsvState.quoteInQuoted cur acc
    else csvLine cs CsvState.inQuoted (c :: cur) acc
  | c :: cs, CsvState.quoteInQuoted, cur, acc =>
    if c = '"' then csvLine cs CsvState.inQuoted ('"' :: cur) acc
    else if c = ',' then csvLine cs CsvState.startField [] (acc ++ [⟨cur.reverse⟩])
    else csvLine cs CsvState.inField (c :: cur) acc

/-- The machine state a line ends in when started at a record boundary:
`inQuoted` means a quoted field is left open across the line break. -/
def lineState (line : String) : CsvState :=
  (csvLine line.data CsvState.startField [] []).1

/-- The fields of one self-contained csv line.  A blank line yields
`[]`<!-- -->, exactly as `csv.reader` yields an empty record for it. -/
def parseCSVLine (line : String) : List String :=
  match line.data with
  | [] => []
  | c :: cs =>
    let t := csvLine (c :: cs) CsvState.startField [] []
    t.2.2 ++ [⟨t.2.1.reverse⟩]

mutual

/-- All csv records of a file given as physical lines, starting at a
record boundary.  A line that leaves a quoted field open continues into
the following lines via `csvCont`<!-- -->. -/
def csvRecs : List String → List (List String)
  | [] => []
  | l :: ls =>
    match l.data with
    | [] => [] :: csvRecs ls
    | c :: cs =>
      let t := csvLine (c :: cs) CsvState.startField [] []
      if t.1 = CsvState.inQuoted then csvCont ls t.2.1 t.2.2
      else (t.2.2 ++ [⟨t.2.1.reverse⟩]) :: csvRecs ls

/-- Continue a record whose quoted field spans the line break: the break
contributes a newline character to the field, then the next physical line
is processed from the `inQuoted` state.  At end of file the open field and
record are closed, as `csv.reader` does. -/
def csvCont : List String → List Char → List String → List (List String)
  | [], cur, acc => [acc ++ [⟨cur.reverse⟩]]
  | l :: ls, cur, acc =>
    let t := csvLine l.data CsvState.inQuoted ('\n' :: cur) acc
    if t.1 = CsvState.inQuoted then csvCont ls t.2.1 t.2.2
    else (t.2.2 ++ [⟨t.2.1.reverse⟩]) :: csvRecs ls

end

/-! ## Raw rows (model of `csv.DictReader`)

`DictReader` zips the field names with the fields of a record: a record
shorter than the header leaves the trailing keys bound to the rest value,
which defaults to Python `None`; extra fields beyond the header are stored
under the rest key `None`, which this program never reads, so they are not
part of the row model. -/

/-- A raw row: field name to value, in header order.  The value `none`
models Python `None` (the `DictReader` rest value for a short record). -/
@[reducible] def Row : Type := List (String × Option String)

/-- Build the row mapping for one record, as `DictReader` does:
positional zip, missing trailing fields bound to `None`. -/
def rowDict : List String → List String → Row
  | [], _ => []
  | fn :: fns, [] => (fn, none) :: rowDict fns []
  | fn :: fns, v :: vs => (fn, some v) :: rowDict fns vs

/-- Dictionary lookup: `some v` when the key is present with value `v`
(`v = none` models a `None` value), `none` when the key is absent.
Later bindings shadow earlier ones, as in a Python dict built by `zip`. -/
def rowGet (r : Row) (k : String) : Option (Option String) :=
  (List.reverse r).findSome? (fun p => if p.1 = k then some p.2 else none)

/-- Model of Python `row.get(k, "")`: the stored value when the key is
present (possibly `None`), the empty string when the key is absent. -/
def pyGet (r : Row) (k : String) : Option String :=
  match rowGet r k with
  | some v => v
  | none => some ""

/-! ## Record normalization -/

/-- Model of Python `str.lower` on the basic latin range (the script only
lower-cases hexadecimal contract addresses). -/
def lowerString (s : String) : String :=
  ⟨s.data.map Char.toLower⟩

/-- Column name `No`. -/
def colNo : String := "No"
/-- Column name `Token ID`. -/
def colTokenId : String := "Token ID"
/-- Column name `Name`. -/
def colName : String := "Name"
/-- Column name `Image URL`. -/
def colImageUrl : String := "Image URL"
/-- Column name `Contract Address`. -/
def colContract : String := "Contract Address"

/-- The nested `metadata` object of an output record. -/
structure NftMetadata where
  name : Option String
  image : Option String
deriving DecidableEq, Repr

/-- An output record.  `token_address` is always a string (the result of
`.lower()`); the other fields may be Python `None` (serialized as null). -/
structure Nft where
  token_address : String
  token_id : Option String
  name : Option String
  image_url : Option String
  metadata : NftMetadata
deriving DecidableEq, Repr

/-- Normalize one raw row into an output record, exactly as the per-row body
of the processing loop does.  Returns `none` when the Python code raises:
`row.get("Contract Address", "")` yields `None` for a short record (the key
is present, bound to `None`), and `None.lower()` raises `AttributeError`. -/
def normalizeRow (r : Row) : Option Nft :=
  match pyGet r colContract with
  | none => none
  | some c =>
    some
      { token_address := lowerString c
        token_id := pyGet r colTokenId
        name := pyGet r colName
        image_url := pyGet r colImageUrl
        metadata := { name := pyGet r colName, image := pyGet r colImageUrl } }

/-! ## Ingestion: the four part files -/

/-- All records of a file: one record per logical csv line (physical
lines are merged while a quoted field is open; blank lines at record
boundaries give `[]`). -/
def fileRecords (lines : List String) : List (List String) :=
  csvRecs lines

/-- The header of the first part: `DictReader.fieldnames` reads the first
record of the file (without skipping), and is `None` for an empty file. -/
def part1Header (lines : List String) : Option (List String) :=
  (fileRecords lines).head?

/-- Rows of a file read by `DictReader` with no explicit field names: the
first record becomes the header, the remaining non-empty records become
rows (`DictReader` skips records equal to `[]`). -/
def part1Rows (lines : List String) : List Row :=
  match fileRecords lines with
  | [] => []
  | h :: rest => (rest.filter (fun r => r ≠ [])).map (rowDict h)

/-- Rows of a file read by `DictReader` with explicit field names `h`:
every non-empty record becomes a row. -/
def partNRows (h : List String) (lines : List String) : List Row :=
  ((fileRecords lines).filter (fun r => r ≠ [])).map (rowDict h)

/-- Rows contributed by a later part, given the first part.  When the first
part is empty, `fieldnames` is `None` and the later `DictReader` infers its
own header from its first record. -/
def laterRows (f1 f : List String) : List Row :=
  match part1Header f1 with
  | some h => partNRows h f
  | none => part1Rows f

/-- The concatenated raw rows of all parts (the `all_rows` list): the first
file supplies the header, later files reuse it, in the given file order. -/
def ingest : List (List String) → List Row
  | [] => []
  | f1 :: rest => part1Rows f1 ++ rest.flatMap (fun f => laterRows f1 f)

/-! ## The processing loop -/

/-- Run a fallible function over a list, collecting the results in order and
aborting on the first failure: the shape of the `for row in all_rows` loop,
whose body can raise. -/
def mapOpt (f : α → Option β) : List α → Option (List β)
  | [] => some []
  | a :: as =>
    match f a with
    | none => none
    | some b =>
      match mapOpt f as with
      | none => none
      | some bs => some (b :: bs)

/-- The full in-memory pipeline: ingest the part files and normalize every
row, in order.  `none` models an uncaught exception (no output written). -/
def convertFiles (files : List (List String)) : Option (List Nft) :=
  mapOpt normalizeRow (ingest files)

/-! ## JSON values

The JSON documents this program writes contain only strings, nulls, one
array and nested objects, so the value type is restricted to those forms. -/

/-- JSON values in the fragment the program emits. -/
inductive Json where
  | null : Json
  | str : String → Json
  | arr : List Json → Json
  | obj : List (String × Json) → Json

/-- Output key `token_address`. -/
def keyTokenAddress : String := "token_address"
/-- Output key `token_id`. -/
def keyTokenId : String := "token_id"
/-- Output key `name`. -/
def keyName : String := "name"
/-- Output key `image_url`. -/
def keyImageUrl : String := "image_url"
/-- Output key `metadata`. -/
def keyMetadata : String := "metadata"
/-- Output key `image`. -/
def keyImage : String := "image"

/-- A Python value that is a string or `None`, as a JSON value. -/
def jsonOfOptStr : Option String → Json
  | none => Json.null
  | some s => Json.str s

/-- The `metadata` sub-object as a JSON value, keys in insertion order. -/
def metaToJson (m : NftMetadata) : Json :=
  Json.obj [(keyName, jsonOfOptStr m.name), (keyImage, jsonOfOptStr m.image)]

/-- An output record as a JSON object, keys in insertion order (Python
dicts preserve insertion order, and `json.dump` writes keys in it). -/
def nftToJson (n : Nft) : Json :=
  Json.obj
    [(keyTokenAddress, Json.str n.token_address),
     (keyTokenId, jsonOfOptStr n.token_id),
     (keyName, jsonOfOptStr n.name),
     (keyImageUrl, jsonOfOptStr n.image_url),
     (keyMetadata, metaToJson n.metadata)]

/-- The whole output document as a JSON value. -/
def nftsToJson (ns : List Nft) : Json :=
  Json.arr (ns.map nftToJson)

/-- The keys of a JSON object, in order (`[]` for non-objects). -/
def jsonKeys : Json → List String
  | Json.obj entries => entries.map Prod.fst
  | _ => []

/-! ## Serialization (model of `json.dump(nfts, f, indent=2, ensure_ascii=False)`)

The exact character stream `json.dump` writes: two-space indentation, item
separator `,` followed by a newline and indentation, key separator `: `<!-- -->,
strings with the standard JSON escapes and non-ascii characters kept literal
(`ensure_ascii=False`). -/

/-- Lower-case hexadecimal digit character for `n < 16`. -/
def hexDigitChar (n : Nat) : Char :=
  if n < 10 then Char.ofNat (48 + n) else Char.ofNat (87 + n)

/-- How `json.dump` writes one character inside a string literal:
quote, backslash and the named control characters get two-character
escapes, other control characters get a `\u00XX` escape, everything else
is written literally (`ensure_ascii=False`). -/
def escChar (c : Char) : List Char :=
  if c = '"' then ['\\', '"']
  else if c = '\\' then ['\\', '\\']
  else if c = '\n' then ['\\', 'n']
  else if c = '\r' then ['\\', 'r']
  else if c = '\t' then ['\\', 't']
  else if c = '\x08' then ['\\', 'b']
  else if c = '\x0c' then ['\\', 'f']
  else if c.toNat < 32 then
    ['\\', 'u', '0', '0', hexDigitChar (c.toNat / 16), hexDigitChar (c.toNat % 16)]
  else [c]

/-- Escape a whole string body. -/
def escChars (cs : List Char) : List Char :=
  cs.flatMap escChar

/-- A JSON string literal. -/
def renderString (s : String) : List Char :=
  '"' :: (escChars s.data ++ ['"'])

/-- The characters of the JSON literal `null`. -/
def nullChars : List Char := ['n', 'u', 'l', 'l']

/-- A string-or-`None` field value as written by `json.dump`. -/
def renderOptStr : Option String → List Char
  | none => nullChars
  | some s => renderString s

/-- Newline and indentation before a key at nesting depth one. -/
def objWs1 : List Char := "\n    ".data
/-- Newline and indentation before a key at nesting depth two. -/
def objWs2 : List Char := "\n      ".data
/-- A quoted object key followed by the key separator `: `<!-- -->. -/
def keyChars (k : String) : List Char := '"' :: (k.data ++ ['"', ':', ' '])
/-- Newline, closing indentation and brace of the metadata object. -/
def metaClose : List Char := "\n    \x7d".data
/-- Newline, closing indentation and brace of a record object. -/
def nftClose : List Char := "\n  \x7d".data
/-- Newline and indentation before an array item. -/
def itemLead : List Char := "\n  ".data
/-- Newline and closing bracket of a non-empty array. -/
def arrClose : List Char := "\n]".data

/-- One metadata object, as written at nesting depth two. -/
def renderMetaChars (m : NftMetadata) : List Char :=
  '{' :: (objWs2 ++ (keyChars keyName ++ (renderOptStr m.name ++
    (',' :: (objWs2 ++ (keyChars keyImage ++ (renderOptStr m.image ++ metaClose)))))))

/-- One record object, as written at nesting depth one. -/
def renderNftChars (n : Nft) : List Char :=
  '{' :: (objWs1 ++ (keyChars keyTokenAddress ++ (renderString n.token_address ++
    (',' :: (objWs1 ++ (keyChars keyTokenId ++ (renderOptStr n.token_id ++
    (',' :: (objWs1 ++ (keyChars keyName ++ (renderOptStr n.name ++
    (',' :: (objWs1 ++ (keyChars keyImageUrl ++ (renderOptStr n.image_url ++
    (',' :: (objWs1 ++ (keyChars keyMetadata ++
      (renderMetaChars n.metadata ++ nftClose)))))))))))))))))))

/-- The items after the first one, each preceded by the item separator,
then the closing bracket. -/
def renderRest : List Nft → List Char
  | [] => arrClose
  | n :: ns => ',' :: (itemLead ++ (renderNftChars n ++ renderRest ns))

/-- The full output document: `[]` for an empty record list, otherwise the
indented array of record objects. -/
def renderNftsChars : List Nft → List Char
  | [] => ['[', ']']
  | n :: ns => '[' :: (itemLead ++ (renderNftChars n ++ renderRest ns))

/-! ## Deserialization (model of `json.load` on the emitted fragment)

A recursive-descent parser over the character stream.  `json.load` parses
with bounded recursion (the Python recursion limit); the `fuel` argument
models that bound, and theorems hold for every sufficiently large fuel.
The model covers the value forms the program can emit (strings, nulls,
arrays, objects); numerals and booleans never occur in its output. -/

/-- Drop leading JSON whitespace. -/
def skipWs : List Char → List Char
  | [] => []
  | c :: cs => if c = ' ' ∨ c = '\n' ∨ c = '\t' ∨ c = '\r' then skipWs cs else c :: cs

/-- The numeric value of a hexadecimal digit character. -/
def hexVal (c : Char) : Option Nat :=
  if 48 ≤ c.toNat ∧ c.toNat ≤ 57 then some (c.toNat - 48)
  else if 97 ≤ c.toNat ∧ c.toNat ≤ 102 then some (c.toNat - 87)
  else if 65 ≤ c.toNat ∧ c.toNat ≤ 70 then some (c.toNat - 55)
  else none

/-- Decode a two-character escape. -/
def unescChar (e : Char) : Option Char :=
  if e = '"' then some '"'
  else if e = '\\' then some '\\'
  else if e = '/' then some '/'
  else if e = 'n' then some '\n'
  else if e = 'r' then some '\r'
  else if e = 't' then some '\t'
  else if e = 'b' then some '\x08'
  else if e = 'f' then some '\x0c'
  else none

/-- Parse the body of a string literal after the opening quote, returning
the decoded characters and the characters after the closing quote. -/
def parseStr : List Char → Option (List Char × List Char)
  | [] => none
  | c :: cs =>
    if c = '"' then some ([], cs)
    else if c = '\\' then
      match cs with
      | 'u' :: h1 :: h2 :: h3 :: h4 :: cs2 =>
        match hexVal h1, hexVal h2, hexVal h3, hexVal h4 with
        | some a, some b, some c2, some d =>
          (parseStr cs2).map (fun p => (Char.ofNat (((a * 16 + b) * 16 + c2) * 16 + d) :: p.1, p.2))
        | _, _, _, _ => none
      | e :: cs2 =>
        match unescChar e with
        | some u => (parseStr cs2).map (fun p => (u :: p.1, p.2))
        | none => none
      | [] => none
    else (parseStr cs).map (fun p => (c :: p.1, p.2))

mutual

/-- Parse one JSON value; `fuel` bounds the recursion depth and the number
of steps taken by the element loops. -/
def parseVal : Nat → List Char → Option (Json × List Char)
  | 0, _ => none
  | fuel + 1, cs =>
    match skipWs cs with
    | 'n' :: 'u' :: 'l' :: 'l' :: rest => some (Json.null, rest)
    | '"' :: rest =>
      match parseStr rest with
      | some (body, rest2) => some (Json.str ⟨body⟩, rest2)
      | none => none
    | '[' :: rest =>
      match skipWs rest with
      | ']' :: rest2 => some (Json.arr [], rest2)
      | _ => parseArrItems fuel rest []
    | '{' :: rest =>
      match skipWs rest with
      | '}' :: rest2 => some (Json.obj [], rest2)
      | _ => parseObjItems fuel rest []
    | _ => none

/-- Parse the comma-separated elements of a non-empty array. -/
def parseArrItems : Nat → List Char → List Json → Option (Json × List Char)
  | 0, _, _ => none
  | fuel + 1, cs, acc =>
    match parseVal fuel cs with
    | some (v, rest) =>
      match skipWs rest with
      | ',' :: rest2 => parseArrItems fuel rest2 (acc ++ [v])
      | ']' :: rest2 => some (Json.arr (acc ++ [v]), rest2)
      | _ => none
    | none => none

/-- Parse the comma-separated entries of a non-empty object. -/
def parseObjItems : Nat → List Char → List (String × Json) → Option (Json × List Char)
  | 0, _, _ => none
  | fuel + 1, cs, acc =>
    match skipWs cs with
    | '"' :: rest =>
      match parseStr rest with
      | some (key, rest2) =>
        match skipWs rest2 with
        | ':' :: rest3 =>
          match parseVal fuel rest3 with
          | some (v, rest4) =>
            match skipWs rest4 with
            | ',' :: rest5 => parseObjItems fuel rest5 (acc ++ [(⟨key⟩, v)])
            | '}' :: rest5 => some (Json.obj (acc ++ [(⟨key⟩, v)]), rest5)
            | _ => none
          | none => none
        | _ => none
      | none => none
    | _ => none

end

/-- Parse a whole document: one value followed only by whitespace. -/
def jsonLoadChars (fuel : Nat) (cs : List Char) : Option Json :=
  match parseVal fuel cs with
  | some (v, rest) => if skipWs rest = [] then some v else none
  | none => none

/-! ## The program run (file system level)

A file system maps a path to `none` when opening or reading fails
(missing or unreadable file), to `some none` when the content is not
valid UTF-8 text, and to `some (some lines)` otherwise. -/

/-- File system abstraction. -/
def FileSys : Type := String → Option (Option (List String))

/-- Open and read one file: `none` aborts the run (`OSError` on open or
read, `UnicodeDecodeError` on decoding). -/
def readLines (fs : FileSys) (p : String) : Option (List String) :=
  match fs p with
  | some (some lines) => some lines
  | some none => none
  | none => none

/-- The four hardcoded input paths, in order. -/
def partPaths : List String :=
  ["static/data/genesis_part1.csv",
   "static/data/genesis_part2.csv",
   "static/data/genesis_part3.csv",
   "static/data/genesis_part4.csv"]

/-- The hardcoded output path. -/
def outputFile : String := "static/data/genesis_nfts.json"

/-- A complete run: read the four parts (aborting on the first failure,
before anything is processed), convert the rows, and write the rendered
document.  The result is the written file as path and content, `none`
when the run aborts with no output written. -/
def runProgram (fs : FileSys) : Option (String × List Char) :=
  match mapOpt (readLines fs) partPaths with
  | none => none
  | some files =>
    match convertFiles files with
    | none => none
    | some ns => some (outputFile, renderNftsChars ns)

/-! ## Concrete example inputs used by witnesses -/

/-- The header plus one data row from the scenario example. -/
def examplePart1 : List String :=
  ["No,Token ID,Name,Image URL,Contract Address",
   "1,42,\"Cool Ape\",\"http://img/1.png\",0xABC123"]

/-- The record the scenario example produces. -/
def exampleNft : Nft :=
  ⟨"0xabc123", some "42", some "Cool Ape", some "http://img/1.png",
   ⟨some "Cool Ape", some "http://img/1.png"⟩⟩

/-- The record produced from a row whose mapping has no keys at all
(every `row.get` call returns the empty-string default). -/
def emptyRowNft : Nft :=
  ⟨"", some "", some "", some "", ⟨some "", some ""⟩⟩

/-! # Theorems -/

/-! ## Helper lemmas -/

/-- A successful `mapOpt` preserves the length. -/
theorem mapOpt_length (f : α → Option β) :
    ∀ (l : List α) (l2 : List β), mapOpt f l = some l2 → l2.length = l.length := by
  intro l
  induction l with
  | nil =>
    intro l2 h
    simp only [mapOpt, Option.some.injEq] at h
    simp [← h]
  | cons a as ih =>
    intro l2 h
    unfold mapOpt at h
    cases hfa : f a with
    | none => rw [hfa] at h; exact absurd h (by simp)
    | some b =>
      rw [hfa] at h
      cases hrest : mapOpt f as with
      | none => rw [hrest] at h; exact absurd h (by simp)
      | some bs =>
        rw [hrest] at h
        simp only [Option.some.injEq] at h
        simp [← h, ih bs hrest]

/-- A successful `mapOpt` is exactly `map` with every result defined. -/
theorem mapOpt_map (f : α → Option β) :
    ∀ (l : List α) (l2 : List β), mapOpt f l = some l2 → l.map f = l2.map some := by
  intro l
  induction l with
  | nil =>
    intro l2 h
    simp only [mapOpt, Option.some.injEq] at h
    simp [← h]
  | cons a as ih =>
    intro l2 h
    unfold mapOpt at h
    cases hfa : f a with
    | none => rw [hfa] at h; exact absurd h (by simp)
    | some b =>
      rw [hfa] at h
      cases hrest : mapOpt f as with
      | none => rw [hrest] at h; exact absurd h (by simp)
      | some bs =>
        rw [hrest] at h
        simp only [Option.some.injEq] at h
        simp [← h, hfa, ih bs hrest]

/-- `mapOpt` fails as soon as any element fails. -/
theorem mapOpt_eq_none (f : α → Option β) (a : α) :
    ∀ (l : List α), a ∈ l → f a = none → mapOpt f l = none := by
  intro l
  induction l with
  | nil => intro h; exact absurd h (by simp)
  | cons b bs ih =>
    intro hmem hfa
    rcases List.mem_cons.mp hmem with hab | hmem2
    · subst hab; simp [mapOpt, hfa]
    · unfold mapOpt
      cases hfb : f b with
      | none => rfl
      | some v => rw [ih hmem2 hfa]

/-- A string is empty exactly when its character list is. -/
theorem data_eq_nil_iff (s : String) : s.data = [] ↔ s = "" := by
  constructor
  · intro h; exact String.ext h
  · intro h; subst h; rfl

/-- The blank line yields the empty record. -/
theorem parseCSVLine_empty : parseCSVLine "" = [] := rfl

/-- A non-blank line yields a non-empty record. -/
theorem parseCSVLine_ne_nil (l : String) (hl : l ≠ "") : parseCSVLine l ≠ [] := by
  unfold parseCSVLine
  cases hd : l.data with
  | nil => exact absurd ((data_eq_nil_iff l).mp hd) hl
  | cons c cs => simp

/-- A line parses to the empty record exactly when it is blank. -/
theorem parseCSVLine_eq_nil_iff (l : String) : parseCSVLine l = [] ↔ l = "" := by
  constructor
  · intro h
    by_contra hne
    exact parseCSVLine_ne_nil l hne h
  · intro h; subst h; rfl

/-- Dropping empty records after parsing is dropping blank lines before. -/
theorem records_filter (lines : List String) :
    (lines.map parseCSVLine).filter (fun r => r ≠ []) =
      (lines.filter (fun l => l ≠ "")).map parseCSVLine := by
  induction lines with
  | nil => rfl
  | cons l ls ih =>
    by_cases hl : l = ""
    · subst hl
      simpa [List.filter_cons, parseCSVLine_empty] using ih
    · have hne := parseCSVLine_ne_nil l hl
      simp [List.filter_cons, hl, hne]
      simpa using ih

/-- Fields of a record beyond the header length are ignored by the row
construction. -/
theorem rowDict_take :
    ∀ (fns : List String) (rec : List String),
      rowDict fns rec = rowDict fns (rec.take fns.length) := by
  intro fns
  induction fns with
  | nil => intro rec; rfl
  | cons fn fns ih =>
    intro rec
    cases rec with
    | nil => rfl
    | cons v vs => simp [rowDict, List.take_succ_cons, ih vs]

/-- Packing a small code point and unpacking it is the identity. -/
theorem toNat_ofNat_of_lt {n : Nat} (h : n < 55296) : (Char.ofNat n).toNat = n := by
  have hv : Nat.isValidChar n := Or.inl h
  unfold Char.ofNat
  rw [dif_pos hv]
  rfl

/-- Basic latin lower-casing of a character is idempotent. -/
theorem toLower_toLower (c : Char) : c.toLower.toLower = c.toLower := by
  unfold Char.toLower
  by_cases h : c.toNat ≥ 65 ∧ c.toNat ≤ 90
  · rw [if_pos h]
    have h1 : (Char.ofNat (c.toNat + 32)).toNat = c.toNat + 32 :=
      toNat_ofNat_of_lt (by omega)
    have h2 : ¬((Char.ofNat (c.toNat + 32)).toNat ≥ 65 ∧
        (Char.ofNat (c.toNat + 32)).toNat ≤ 90) := by
      rw [h1]; omega
    rw [if_neg h2]
  · rw [if_neg h, if_neg h]

/-- Lower-casing a string is idempotent. -/
theorem lowerString_idem (s : String) : lowerString (lowerString s) = lowerString s := by
  unfold lowerString
  apply congrArg
  show (s.data.map Char.toLower).map Char.toLower = s.data.map Char.toLower
  rw [List.map_map]
  exact List.map_congr_left (fun a _ => toLower_toLower a)

/-- The four-part ingest is the concatenation of the per-part row lists. -/
theorem ingest_quad (f1 f2 f3 f4 : List String) :
    ingest [f1, f2, f3, f4] =
      part1Rows f1 ++ (laterRows f1 f2 ++ (laterRows f1 f3 ++ laterRows f1 f4)) := by
  simp [ingest]

/-! ## String escaping round trip -/

/-- Unpacking a small packed code point is the identity. -/
theorem char_ofNat_toNat {c : Char} (h : c.toNat < 55296) : Char.ofNat c.toNat = c := by
  apply Char.eq_of_val_eq
  apply UInt32.ext
  exact toNat_ofNat_of_lt h

/-- Hexadecimal digits decode to their value. -/
theorem hexVal_hexDigitChar (n : Nat) (h : n < 16) : hexVal (hexDigitChar n) = some n := by
  interval_cases n <;> decide

/-- An immediate closing quote ends the string body. -/
theorem parseStr_quote (xs : List Char) : parseStr ('"' :: xs) = some ([], xs) := by
  rw [parseStr.eq_def]
  simp

/-- A two-character escape decodes through `unescChar`. -/
theorem parseStr_esc2 (e u : Char) (xs : List Char) (hu : unescChar e = some u) :
    parseStr ('\\' :: e :: xs) = (parseStr xs).map (fun p => (u :: p.1, p.2)) := by
  rw [parseStr.eq_def]
  dsimp only
  rw [if_neg (show ¬(('\\' : Char) = '"') by decide), if_pos rfl]
  split
  · rename_i h1 h2 h3 h4 cs2 heq
    injection heq with he hxs
    rw [he] at hu
    exact absurd hu (by simp [unescChar])
  · rename_i e2 cs2 heq
    injection heq with he hxs
    subst he
    subst hxs
    rw [hu]
  · rename_i heq
    exact absurd heq (by simp)

/-- An ordinary character is read literally. -/
theorem parseStr_other (c : Char) (h1 : c ≠ '"') (h2 : c ≠ '\\') (xs : List Char) :
    parseStr (c :: xs) = (parseStr xs).map (fun p => (c :: p.1, p.2)) := by
  rw [parseStr.eq_def]
  simp [h1, h2]

/-- A `\u00XX` escape decodes back to its control character. -/
theorem parseStr_escU (c : Char) (hc : c.toNat < 32) (xs : List Char) :
    parseStr ('\\' :: 'u' :: '0' :: '0' :: hexDigitChar (c.toNat / 16) ::
        hexDigitChar (c.toNat % 16) :: xs) =
      (parseStr xs).map (fun p => (c :: p.1, p.2)) := by
  have hdiv : c.toNat / 16 < 16 := Nat.div_lt_of_lt_mul (by omega)
  have hmod : c.toNat % 16 < 16 := Nat.mod_lt _ (by norm_num)
  rw [parseStr.eq_def]
  dsimp only
  rw [if_neg (show ¬(('\\' : Char) = '"') by decide), if_pos rfl]
  have harith : ((0 * 16 + 0) * 16 + c.toNat / 16) * 16 + c.toNat % 16 = c.toNat := by
    have hdm := Nat.div_add_mod c.toNat 16
    omega
  simp only [show hexVal '0' = some 0 from rfl,
    hexVal_hexDigitChar _ hdiv, hexVal_hexDigitChar _ hmod, harith]
  rw [char_ofNat_toNat (by omega)]

/-- Round trip of the string escaping: parsing an escaped body followed by
the closing quote recovers the original characters. -/
theorem parseStr_escChars : ∀ (s rest : List Char),
    parseStr (escChars s ++ '"' :: rest) = some (s, rest) := by
  intro s
  induction s with
  | nil =>
    intro rest
    simpa [escChars] using parseStr_quote rest
  | cons c s ih =>
    intro rest
    have hflat : escChars (c :: s) ++ '"' :: rest =
        escChar c ++ (escChars s ++ '"' :: rest) := by
      simp [escChars]
    rw [hflat]
    by_cases h1 : c = '"'
    · subst h1
      rw [show escChar '"' = ['\\', '"'] from rfl]
      simp only [List.cons_append, List.nil_append]
      rw [parseStr_esc2 '"' '"' _ rfl, ih rest]
      rfl
    · by_cases h2 : c = '\\'
      · subst h2
        rw [show escChar '\\' = ['\\', '\\'] from rfl]
        simp only [List.cons_append, List.nil_append]
        rw [parseStr_esc2 '\\' '\\' _ rfl, ih rest]
        rfl
      · by_cases h3 : c = '\n'
        · subst h3
          rw [show escChar '\n' = ['\\', 'n'] from rfl]
          simp only [List.cons_append, List.nil_append]
          rw [parseStr_esc2 'n' '\n' _ rfl, ih rest]
          rfl
        · by_cases h4 : c = '\r'
          · subst h4
            rw [show escChar '\r' = ['\\', 'r'] from rfl]
            simp only [List.cons_append, List.nil_append]
            rw [parseStr_esc2 'r' '\r' _ rfl, ih rest]
            rfl
          · by_cases h5 : c = '\t'
            · subst h5
              rw [show escChar '\t' = ['\\', 't'] from rfl]
              simp only [List.cons_append, List.nil_append]
              rw [parseStr_esc2 't' '\t' _ rfl, ih rest]
              rfl
            · by_cases h6 : c = '\x08'
              · subst h6
                rw [show escChar '\x08' = ['\\', 'b'] from rfl]
                simp only [List.cons_append, List.nil_append]
                rw [parseStr_esc2 'b' '\x08' _ rfl, ih rest]
                rfl
              · by_cases h7 : c = '\x0c'
                · subst h7
                  rw [show escChar '\x0c' = ['\\', 'f'] from rfl]
                  simp only [List.cons_append, List.nil_append]
                  rw [parseStr_esc2 'f' '\x0c' _ rfl, ih rest]
                  rfl
                · by_cases h8 : c.toNat < 32
                  · have hesc : escChar c = ['\\', 'u', '0', '0',
                        hexDigitChar (c.toNat / 16), hexDigitChar (c.toNat % 16)] := by
                      simp [escChar, h1, h2, h3, h4, h5, h6, h7, h8]
                    rw [hesc]
                    simp only [List.cons_append, List.nil_append]
                    rw [parseStr_escU c h8, ih rest]
                    rfl
                  · have hesc : escChar c = [c] := by
                      simp [escChar, h1, h2, h3, h4, h5, h6, h7, h8]
                    rw [hesc]
                    simp only [List.cons_append, List.nil_append]
                    rw [parseStr_other c h1 h2, ih rest]
                    rfl

/-! ## Parser reduction lemmas for the rendered document -/

/-- The literal `null` parses as the null value. -/
theorem parseVal_null (fuel : Nat) (rest : List Char) :
    parseVal (fuel + 1) ('n' :: 'u' :: 'l' :: 'l' :: rest) = some (Json.null, rest) := rfl

/-- A value beginning with a quote parses via the string body parser. -/
theorem parseVal_string (fuel : Nat) (cs cs1 body rest : List Char)
    (h1 : skipWs cs = '"' :: cs1) (h2 : parseStr cs1 = some (body, rest)) :
    parseVal (fuel + 1) cs = some (Json.str ⟨body⟩, rest) := by
  simp only [parseVal]
  rw [h1]
  split <;> simp_all

/-- `parseVal` only looks at its input through `skipWs`. -/
theorem parseVal_skipws_congr (fuel : Nat) (a b : List Char) (h : skipWs a = skipWs b) :
    parseVal (fuel + 1) a = parseVal (fuel + 1) b := by
  simp only [parseVal]
  rw [h]

/-- A string-or-null field value, preceded by the key separator space,
parses back to its JSON image. -/
theorem parseVal_valOptStr (fuel : Nat) (o : Option String) (rest : List Char) :
    parseVal (fuel + 1) (' ' :: (renderOptStr o ++ rest)) = some (jsonOfOptStr o, rest) := by
  cases o with
  | none => rfl
  | some s =>
    have h1 : skipWs (' ' :: (renderOptStr (some s) ++ rest)) =
        '"' :: (escChars s.data ++ ('"' :: rest)) := by
      simp [renderOptStr, renderString, skipWs, List.append_assoc]
    exact parseVal_string fuel _ _ _ _ h1 (parseStr_escChars s.data rest)

/-- A plain string value, preceded by the key separator space, parses back
to its JSON image. -/
theorem parseVal_valStr (fuel : Nat) (s : String) (rest : List Char) :
    parseVal (fuel + 1) (' ' :: (renderString s ++ rest)) = some (Json.str s, rest) := by
  have h1 : skipWs (' ' :: (renderString s ++ rest)) =
      '"' :: (escChars s.data ++ ('"' :: rest)) := by
    simp [renderString, skipWs, List.append_assoc]
  exact parseVal_string fuel _ _ _ _ h1 (parseStr_escChars s.data rest)

/-- Entering a non-empty object hands the input after the brace to the
entry loop. -/
theorem parseVal_objEnter (fuel : Nat) (cs cs1 : List Char)
    (h1 : skipWs cs = '{' :: cs1) (h2 : ∃ cs2, skipWs cs1 = '"' :: cs2) :
    parseVal (fuel + 1) cs = parseObjItems fuel cs1 [] := by
  obtain ⟨cs2, h2⟩ := h2
  simp only [parseVal]
  rw [h1]
  simp [h2]

/-- Entering a non-empty array hands the input after the bracket to the
item loop. -/
theorem parseVal_arrEnter (fuel : Nat) (cs cs1 : List Char)
    (h1 : skipWs cs = '[' :: cs1) (h2 : ∃ cs2, skipWs cs1 = '{' :: cs2) :
    parseVal (fuel + 1) cs = parseArrItems fuel cs1 [] := by
  obtain ⟨cs2, h2⟩ := h2
  simp only [parseVal]
  rw [h1]
  simp [h2]

/-- One object entry followed by a comma: parse the key, the separator and
the value, then continue the loop after the comma. -/
theorem objStepMore (fuel : Nat) (cs cs1 key cs2 cs3 cs4 cs5 : List Char) (v : Json)
    (acc : List (String × Json))
    (h1 : skipWs cs = '"' :: cs1)
    (h2 : parseStr cs1 = some (key, cs2))
    (h3 : skipWs cs2 = ':' :: cs3)
    (h4 : parseVal fuel cs3 = some (v, cs4))
    (h5 : skipWs cs4 = ',' :: cs5) :
    parseObjItems (fuel + 1) cs acc = parseObjItems fuel cs5 (acc ++ [(⟨key⟩, v)]) := by
  simp only [parseObjItems]
  rw [h1]
  simp [h2, h3, h4, h5]

/-- The last object entry: parse it and close the object at the brace. -/
theorem objStepLast (fuel : Nat) (cs cs1 key cs2 cs3 cs4 cs5 : List Char) (v : Json)
    (acc : List (String × Json))
    (h1 : skipWs cs = '"' :: cs1)
    (h2 : parseStr cs1 = some (key, cs2))
    (h3 : skipWs cs2 = ':' :: cs3)
    (h4 : parseVal fuel cs3 = some (v, cs4))
    (h5 : skipWs cs4 = '}' :: cs5) :
    parseObjItems (fuel + 1) cs acc = some (Json.obj (acc ++ [(⟨key⟩, v)]), cs5) := by
  simp only [parseObjItems]
  rw [h1]
  simp [h2, h3, h4, h5]

/-- One array item followed by a comma: parse it and continue the loop. -/
theorem arrStepMore (fuel : Nat) (cs cs4 cs5 : List Char) (v : Json) (acc : List Json)
    (h4 : parseVal fuel cs = some (v, cs4))
    (h5 : skipWs cs4 = ',' :: cs5) :
    parseArrItems (fuel + 1) cs acc = parseArrItems fuel cs5 (acc ++ [v]) := by
  simp only [parseArrItems]
  simp [h4, h5]

/-- The last array item: parse it and close the array at the bracket. -/
theorem arrStepLast (fuel : Nat) (cs cs4 cs5 : List Char) (v : Json) (acc : List Json)
    (h4 : parseVal fuel cs = some (v, cs4))
    (h5 : skipWs cs4 = ']' :: cs5) :
    parseArrItems (fuel + 1) cs acc = some (Json.arr (acc ++ [v]), cs5) := by
  simp only [parseArrItems]
  simp [h4, h5]

/-- A rendered object entry with a plain string value, followed by a
comma: the loop records the pair and continues after the comma. -/
theorem objEntryStepStr (g : Nat) (W : List Char) (k : String) (s : String) (X : List Char)
    (acc : List (String × Json)) (hk : escChars k.data = k.data)
    (hws : skipWs (W ++ (keyChars k ++ (renderString s ++ (',' :: X)))) =
      '"' :: (k.data ++ ('"' :: ':' :: ' ' :: (renderString s ++ (',' :: X))))) :
    parseObjItems (g + 2) (W ++ (keyChars k ++ (renderString s ++ (',' :: X)))) acc =
      parseObjItems (g + 1) X (acc ++ [(k, Json.str s)]) := by
  have h2 : parseStr (k.data ++ ('"' :: ':' :: ' ' :: (renderString s ++ (',' :: X)))) =
      some (k.data, ':' :: ' ' :: (renderString s ++ (',' :: X))) := by
    have h := parseStr_escChars k.data (':' :: ' ' :: (renderString s ++ (',' :: X)))
    rwa [hk] at h
  have h4 := parseVal_valStr g s (',' :: X)
  exact objStepMore (g + 1) _ _ _ _ _ _ _ _ _ hws h2 rfl h4 rfl

/-- A rendered object entry with a string-or-null value, followed by a
comma: the loop records the pair and continues after the comma. -/
theorem objEntryStepOpt (g : Nat) (W : List Char) (k : String) (o : Option String)
    (X : List Char) (acc : List (String × Json)) (hk : escChars k.data = k.data)
    (hws : skipWs (W ++ (keyChars k ++ (renderOptStr o ++ (',' :: X)))) =
      '"' :: (k.data ++ ('"' :: ':' :: ' ' :: (renderOptStr o ++ (',' :: X))))) :
    parseObjItems (g + 2) (W ++ (keyChars k ++ (renderOptStr o ++ (',' :: X)))) acc =
      parseObjItems (g + 1) X (acc ++ [(k, jsonOfOptStr o)]) := by
  have h2 : parseStr (k.data ++ ('"' :: ':' :: ' ' :: (renderOptStr o ++ (',' :: X)))) =
      some (k.data, ':' :: ' ' :: (renderOptStr o ++ (',' :: X))) := by
    have h := parseStr_escChars k.data (':' :: ' ' :: (renderOptStr o ++ (',' :: X)))
    rwa [hk] at h
  have h4 := parseVal_valOptStr g o (',' :: X)
  exact objStepMore (g + 1) _ _ _ _ _ _ _ _ _ hws h2 rfl h4 rfl

/-- The final rendered object entry with a string-or-null value, followed
by closing layout `C`<!-- -->: the loop records the pair and closes the object. -/
theorem objEntryLastOpt (g : Nat) (W : List Char) (k : String) (o : Option String)
    (C X : List Char) (acc : List (String × Json)) (hk : escChars k.data = k.data)
    (hws : skipWs (W ++ (keyChars k ++ (renderOptStr o ++ (C ++ X)))) =
      '"' :: (k.data ++ ('"' :: ':' :: ' ' :: (renderOptStr o ++ (C ++ X)))))
    (hclose : skipWs (C ++ X) = '}' :: X) :
    parseObjItems (g + 2) (W ++ (keyChars k ++ (renderOptStr o ++ (C ++ X)))) acc =
      some (Json.obj (acc ++ [(k, jsonOfOptStr o)]), X) := by
  have h2 : parseStr (k.data ++ ('"' :: ':' :: ' ' :: (renderOptStr o ++ (C ++ X)))) =
      some (k.data, ':' :: ' ' :: (renderOptStr o ++ (C ++ X))) := by
    have h := parseStr_escChars k.data (':' :: ' ' :: (renderOptStr o ++ (C ++ X)))
    rwa [hk] at h
  have h4 := parseVal_valOptStr g o (C ++ X)
  exact objStepLast (g + 1) _ _ _ _ _ _ _ _ _ hws h2 rfl h4 hclose

/-- A rendered metadata object, preceded by the key separator space,
parses back to its JSON image. -/
theorem parseVal_valMeta (g : Nat) (m : NftMetadata) (rest : List Char) :
    parseVal (g + 4) (' ' :: (renderMetaChars m ++ rest)) = some (metaToJson m, rest) := by
  let M2 : List Char := objWs2 ++ (keyChars keyImage ++ (renderOptStr m.image ++ (metaClose ++ rest)))
  let M1 : List Char := objWs2 ++ (keyChars keyName ++ (renderOptStr m.name ++ (',' :: M2)))
  trans (parseObjItems (g + 3) M1 [])
  · exact parseVal_objEnter (g + 3) _ _
      (by simp [M1, M2, renderMetaChars, skipWs, List.append_assoc]) ⟨_, rfl⟩
  trans (parseObjItems (g + 2) M2 [(keyName, jsonOfOptStr m.name)])
  · exact objEntryStepOpt (g + 1) objWs2 keyName m.name M2 [] (by decide) rfl
  trans (some (Json.obj ([(keyName, jsonOfOptStr m.name)] ++
    [(keyImage, jsonOfOptStr m.image)]), rest))
  · exact objEntryLastOpt g objWs2 keyImage m.image metaClose rest
      [(keyName, jsonOfOptStr m.name)] (by decide) rfl rfl
  · simp [metaToJson]

/-- The final entry of a record object, whose value is the metadata
object: the loop records it and closes the record object. -/
theorem objEntryLastMeta (g : Nat) (m : NftMetadata) (X : List Char)
    (acc : List (String × Json))
    (hws : skipWs (objWs1 ++ (keyChars keyMetadata ++ (renderMetaChars m ++ (nftClose ++ X)))) =
      '"' :: (keyMetadata.data ++ ('"' :: ':' :: ' ' :: (renderMetaChars m ++ (nftClose ++ X))))) :
    parseObjItems (g + 5) (objWs1 ++ (keyChars keyMetadata ++ (renderMetaChars m ++ (nftClose ++ X)))) acc =
      some (Json.obj (acc ++ [(keyMetadata, metaToJson m)]), X) := by
  have h2 : parseStr (keyMetadata.data ++ ('"' :: ':' :: ' ' :: (renderMetaChars m ++ (nftClose ++ X)))) =
      some (keyMetadata.data, ':' :: ' ' :: (renderMetaChars m ++ (nftClose ++ X))) := by
    have h := parseStr_escChars keyMetadata.data (':' :: ' ' :: (renderMetaChars m ++ (nftClose ++ X)))
    rwa [show escChars keyMetadata.data = keyMetadata.data from by decide] at h
  have h4 := parseVal_valMeta g m (nftClose ++ X)
  exact objStepLast (g + 4) _ _ _ _ _ _ _ _ _ hws h2 rfl h4 rfl

/-- A rendered record object parses back to its JSON image. -/
theorem parseVal_renderNft (f : Nat) (n : Nft) (rest : List Char) :
    parseVal (f + 10) (renderNftChars n ++ rest) = some (nftToJson n, rest) := by
  let T5 : List Char := objWs1 ++ (keyChars keyMetadata ++ (renderMetaChars n.metadata ++ (nftClose ++ rest)))
  let T4 : List Char := objWs1 ++ (keyChars keyImageUrl ++ (renderOptStr n.image_url ++ (',' :: T5)))
  let T3 : List Char := objWs1 ++ (keyChars keyName ++ (renderOptStr n.name ++ (',' :: T4)))
  let T2 : List Char := objWs1 ++ (keyChars keyTokenId ++ (renderOptStr n.token_id ++ (',' :: T3)))
  let T1 : List Char := objWs1 ++ (keyChars keyTokenAddress ++ (renderString n.token_address ++ (',' :: T2)))
  trans (parseObjItems (f + 9) T1 [])
  · exact parseVal_objEnter (f + 9) _ _
      (by simp [T1, T2, T3, T4, T5, renderNftChars, skipWs, List.append_assoc]) ⟨_, rfl⟩
  trans (parseObjItems (f + 8) T2 [(keyTokenAddress, Json.str n.token_address)])
  · exact objEntryStepStr (f + 7) objWs1 keyTokenAddress n.token_address T2 [] (by decide) rfl
  trans (parseObjItems (f + 7) T3 [(keyTokenAddress, Json.str n.token_address),
    (keyTokenId, jsonOfOptStr n.token_id)])
  · exact objEntryStepOpt (f + 6) objWs1 keyTokenId n.token_id T3
      [(keyTokenAddress, Json.str n.token_address)] (by decide) rfl
  trans (parseObjItems (f + 6) T4 [(keyTokenAddress, Json.str n.token_address),
    (keyTokenId, jsonOfOptStr n.token_id), (keyName, jsonOfOptStr n.name)])
  · exact objEntryStepOpt (f + 5) objWs1 keyName n.name T4
      [(keyTokenAddress, Json.str n.token_address), (keyTokenId, jsonOfOptStr n.token_id)]
      (by decide) rfl
  trans (parseObjItems (f + 5) T5 [(keyTokenAddress, Json.str n.token_address),
    (keyTokenId, jsonOfOptStr n.token_id), (keyName, jsonOfOptStr n.name),
    (keyImageUrl, jsonOfOptStr n.image_url)])
  · exact objEntryStepOpt (f + 4) objWs1 keyImageUrl n.image_url T5
      [(keyTokenAddress, Json.str n.token_address), (keyTokenId, jsonOfOptStr n.token_id),
       (keyName, jsonOfOptStr n.name)] (by decide) rfl
  trans (some (Json.obj ([(keyTokenAddress, Json.str n.token_address),
    (keyTokenId, jsonOfOptStr n.token_id), (keyName, jsonOfOptStr n.name),
    (keyImageUrl, jsonOfOptStr n.image_url)] ++ [(keyMetadata, metaToJson n.metadata)]), rest))
  · exact objEntryLastMeta f n.metadata rest
      [(keyTokenAddress, Json.str n.token_address), (keyTokenId, jsonOfOptStr n.token_id),
       (keyName, jsonOfOptStr n.name), (keyImageUrl, jsonOfOptStr n.image_url)] rfl
  · simp [nftToJson]

/-- A rendered record object preceded by the item layout parses back to
its JSON image. -/
theorem parseVal_nftLead (x : Nat) (n : Nft) (R : List Char) :
    parseVal (x + 10) (itemLead ++ (renderNftChars n ++ R)) = some (nftToJson n, R) := by
  have hc : skipWs (itemLead ++ (renderNftChars n ++ R)) = skipWs (renderNftChars n ++ R) := rfl
  exact (parseVal_skipws_congr (x + 9) _ _ hc).trans (parseVal_renderNft x n R)

/-- The array item loop parses one rendered record after another, in
order, and closes the array at the final bracket. -/
theorem arrLoop : ∀ (ns : List Nft) (f : Nat) (n : Nft) (acc : List Json) (rest : List Char),
    parseArrItems (f + ns.length + 12)
        (itemLead ++ (renderNftChars n ++ (renderRest ns ++ rest))) acc =
      some (Json.arr (acc ++ nftToJson n :: ns.map nftToJson), rest) := by
  intro ns
  induction ns with
  | nil =>
    intro f n acc rest
    exact arrStepLast _ _ _ _ _ _ (parseVal_nftLead (f + 1) n (renderRest [] ++ rest)) rfl
  | cons n2 ns2 ih =>
    intro f n acc rest
    have h4 := parseVal_nftLead (f + ns2.length + 2) n (renderRest (n2 :: ns2) ++ rest)
    have h5 : skipWs (renderRest (n2 :: ns2) ++ rest) =
        ',' :: (itemLead ++ (renderNftChars n2 ++ (renderRest ns2 ++ rest))) := by
      simp [renderRest, skipWs, List.append_assoc]
    have step := arrStepMore (f + ns2.length + 12) _ _ _ _ acc h4 h5
    exact step.trans ((ih f n2 (acc ++ [nftToJson n]) rest).trans (by simp))

/-- The whole rendered document parses back to the JSON image of the
record list. -/
theorem parseVal_renderNfts (f : Nat) (ns : List Nft) (rest : List Char) :
    parseVal (f + ns.length + 12) (renderNftsChars ns ++ rest) = some (nftsToJson ns, rest) := by
  cases ns with
  | nil => rfl
  | cons n ns2 =>
    have e1 := parseVal_arrEnter (f + ns2.length + 12) (renderNftsChars (n :: ns2) ++ rest)
      (itemLead ++ (renderNftChars n ++ (renderRest ns2 ++ rest)))
      (by simp [renderNftsChars, skipWs, List.append_assoc]) ⟨_, rfl⟩
    exact e1.trans ((arrLoop ns2 f n [] rest).trans (by simp [nftsToJson]))

/-! ## Claim theorems -/

/-- C1.  The claim says a row with fewer fields than the header has columns
still yields an output record whose missing fields are the empty string,
with no missing-field error.  The code disagrees: `DictReader` binds the
missing trailing columns to `None` (the keys are present), so
`row.get("Contract Address", "")` returns `None` and `.lower()` raises.
First conjunct: with the canonical header, the short row `1,42` aborts the
whole conversion (no record at all).  Second conjunct: with a header
permuted so that the contract address is present, the fields of the other
missing columns come out as `None` (JSON null), not the empty string. -/
theorem claim1_short_row_null_fields :
    convertFiles [["No,Token ID,Name,Image URL,Contract Address", "1,42"], [], [], []] = none ∧
    convertFiles [["No,Token ID,Contract Address,Name,Image URL", "1,42,0xA"], [], [], []] =
      some [⟨"0xa", some "42", none, none, ⟨none, none⟩⟩] := by
  exact ⟨by decide, by decide⟩

/-- C2 counterexample.  As stated the claim fails: on an input set whose
single data row is shorter than the header, the ingest produces one raw
row, but that row yields no output record at all — normalization raises
(`None.lower()`), the run aborts, and there is no output sequence whose
length could equal one. -/
theorem claim2_counterexample :
    (ingest [["No,Token ID,Name,Image URL,Contract Address", "1,42"], [], [], []]).length = 1 ∧
    convertFiles [["No,Token ID,Name,Image URL,Contract Address", "1,42"], [], [], []] = none := by
  exact ⟨by decide, by decide⟩

/-- C2 (amended).  For every run that completes, every raw row yields
exactly one output record and none is dropped: the output length is the
sum of the row counts of the four parts. -/
theorem claim2_row_count_preservation (f1 f2 f3 f4 : List String) (ns : List Nft)
    (h : convertFiles [f1, f2, f3, f4] = some ns) :
    ns.length = (part1Rows f1).length + (laterRows f1 f2).length +
      (laterRows f1 f3).length + (laterRows f1 f4).length := by
  unfold convertFiles at h
  have hlen := mapOpt_length normalizeRow _ _ h
  rw [ingest_quad] at hlen
  simp only [List.length_append] at hlen
  omega

/-- C2 witness: the scenario input has one row and one output record. -/
theorem claim2_row_count_preservation_witness :
    ([exampleNft].length = (part1Rows examplePart1).length +
      (laterRows examplePart1 []).length + (laterRows examplePart1 []).length +
      (laterRows examplePart1 []).length) :=
  claim2_row_count_preservation examplePart1 [] [] [] [exampleNft] (by decide)

/-- C3.  The scenario example: header plus one quoted row in part 1, parts
2 to 4 empty.  The run produces exactly the claimed one-element array, both
as the in-memory record and as the JSON value obtained by parsing the
written document. -/
theorem claim3_scenario_example :
    convertFiles
        [["No,Token ID,Name,Image URL,Contract Address",
          "1,42,\"Cool Ape\",\"http://img/1.png\",0xABC123"], [], [], []] =
      some [⟨"0xabc123", some "42", some "Cool Ape", some "http://img/1.png",
        ⟨some "Cool Ape", some "http://img/1.png"⟩⟩] ∧
    jsonLoadChars 50
        (renderNftsChars [⟨"0xabc123", some "42", some "Cool Ape",
          some "http://img/1.png", ⟨some "Cool Ape", some "http://img/1.png"⟩⟩]) =
      some (Json.arr [Json.obj
        [("token_address", Json.str "0xabc123"),
         ("token_id", Json.str "42"),
         ("name", Json.str "Cool Ape"),
         ("image_url", Json.str "http://img/1.png"),
         ("metadata", Json.obj
           [("name", Json.str "Cool Ape"),
            ("image", Json.str "http://img/1.png")])]]) := by
  exact ⟨by decide, by rfl⟩

/-- C4.  Every output record mirrors its name and image url inside the
nested metadata object. -/
theorem claim4_metadata_mirroring (r : Row) (n : Nft) (h : normalizeRow r = some n) :
    n.metadata.name = n.name ∧ n.metadata.image = n.image_url := by
  unfold normalizeRow at h
  cases hc : pyGet r colContract with
  | none => rw [hc] at h; exact absurd h (by simp)
  | some c =>
    rw [hc] at h
    simp only [Option.some.injEq] at h
    rw [← h]
    exact ⟨rfl, rfl⟩

/-- C4 witness at the empty row. -/
theorem claim4_metadata_mirroring_witness :
    emptyRowNft.metadata.name = emptyRowNft.name ∧
      emptyRowNft.metadata.image = emptyRowNft.image_url :=
  claim4_metadata_mirroring [] emptyRowNft (by decide)

/-- C5.  For a run that completes, the output records are the normalized
raw rows in the same order, and the raw rows are the concatenation of the
parts in the fixed part order. -/
theorem claim5_order_preservation (f1 f2 f3 f4 : List String) (ns : List Nft)
    (h : convertFiles [f1, f2, f3, f4] = some ns) :
    (ingest [f1, f2, f3, f4]).map normalizeRow = ns.map some ∧
    ingest [f1, f2, f3, f4] =
      part1Rows f1 ++ (laterRows f1 f2 ++ (laterRows f1 f3 ++ laterRows f1 f4)) := by
  unfold convertFiles at h
  exact ⟨mapOpt_map normalizeRow _ _ h, ingest_quad f1 f2 f3 f4⟩

/-- C5 witness at the scenario input. -/
theorem claim5_order_preservation_witness :
    (ingest [examplePart1, [], [], []]).map normalizeRow = [exampleNft].map some ∧
    ingest [examplePart1, [], [], []] =
      part1Rows examplePart1 ++ (laterRows examplePart1 [] ++
        (laterRows examplePart1 [] ++ laterRows examplePart1 [])) :=
  claim5_order_preservation examplePart1 [] [] [] [exampleNft] (by decide)

/-- C6.  If opening or reading any of the listed input paths fails, or its
content does not decode, the whole run aborts and nothing is written. -/
theorem claim6_read_failure_aborts (fs : FileSys) (p : String)
    (hp : p ∈ partPaths) (hfail : fs p = none ∨ fs p = some none) :
    runProgram fs = none := by
  have hr : readLines fs p = none := by
    cases hfail with
    | inl h => simp [readLines, h]
    | inr h => simp [readLines, h]
  unfold runProgram
  rw [mapOpt_eq_none (readLines fs) p partPaths hp hr]

/-- C6 witness: a file system with no readable files aborts the run. -/
theorem claim6_read_failure_aborts_witness :
    runProgram (fun _ => none) = none :=
  claim6_read_failure_aborts (fun _ => none) "static/data/genesis_part1.csv"
    (by simp [partPaths]) (Or.inl rfl)

/-- C7.  The token address of every output record is already normalized:
lower-casing it again changes nothing. -/
theorem claim7_lower_idempotent (r : Row) (n : Nft) (h : normalizeRow r = some n) :
    lowerString n.token_address = n.token_address := by
  unfold normalizeRow at h
  cases hc : pyGet r colContract with
  | none => rw [hc] at h; exact absurd h (by simp)
  | some c =>
    rw [hc] at h
    simp only [Option.some.injEq] at h
    rw [← h]
    exact lowerString_idem c

/-- C7 witness at the empty row. -/
theorem claim7_lower_idempotent_witness :
    lowerString emptyRowNft.token_address = emptyRowNft.token_address :=
  claim7_lower_idempotent [] emptyRowNft (by decide)

/-- C9.  Every output record carries exactly the five canonical keys in
order, the metadata object exactly its two keys, and record fields beyond
the header columns never reach the row mapping (so never the output). -/
theorem claim9_record_shape (fns rec : List String) (r : Row) (n : Nft)
    (h : normalizeRow r = some n) :
    jsonKeys (nftToJson n) = ["token_address", "token_id", "name", "image_url", "metadata"] ∧
    jsonKeys (metaToJson n.metadata) = ["name", "image"] ∧
    rowDict fns rec = rowDict fns (rec.take fns.length) := by
  exact ⟨rfl, rfl, rowDict_take fns rec⟩

/-- C9 witness: shape of the empty-row record and a record with an extra
field beyond its one-column header. -/
theorem claim9_record_shape_witness :
    jsonKeys (nftToJson emptyRowNft) =
      ["token_address", "token_id", "name", "image_url", "metadata"] ∧
    jsonKeys (metaToJson emptyRowNft.metadata) = ["name", "image"] ∧
    rowDict ["No"] ["1", "extra"] = rowDict ["No"] (["1", "extra"].take (["No"]).length) :=
  claim9_record_shape ["No"] ["1", "extra"] [] emptyRowNft (by decide)

/-- When no line leaves a quoted field open, the file records are exactly
the per-line records. -/
theorem csvRecs_eq_map : ∀ (lines : List String),
    (∀ l ∈ lines, lineState l ≠ CsvState.inQuoted) →
    csvRecs lines = lines.map parseCSVLine := by
  intro lines
  induction lines with
  | nil => intro _; rfl
  | cons l ls ih =>
    intro hl
    have hstate : lineState l ≠ CsvState.inQuoted := hl l (by simp)
    have hrest : ∀ x ∈ ls, lineState x ≠ CsvState.inQuoted := fun x hx => hl x (by simp [hx])
    cases hd : l.data with
    | nil => simp [csvRecs, hd, parseCSVLine, ih hrest]
    | cons c cs =>
      have hq : (csvLine (c :: cs) CsvState.startField [] []).1 ≠ CsvState.inQuoted := by
        unfold lineState at hstate
        rw [hd] at hstate
        exact hstate
      simp [csvRecs, hd, hq, parseCSVLine, ih hrest]

/-- C10 counterexample.  As stated the claim fails: `csv.reader` merges
physical lines while a quoted field is open, so the part whose two
non-blank lines are `"a` and `b"` yields a single record (the field
holding `a`<!-- -->, a newline and `b`<!-- -->), one row from two non-blank
lines; and a blank line inserted inside the open quoted field changes the
rows (it adds a newline to the field) instead of being skipped. -/
theorem claim10_counterexample :
    (partNRows ["No"] ["\"a", "b\""]).length = 1 ∧
    ((["\"a", "b\""] : List String).filter (fun l => l ≠ "")).length = 2 ∧
    partNRows ["No"] ["\"a", "", "b\""] ≠ partNRows ["No"] ["\"a", "b\""] := by
  exact ⟨by decide, by decide, by decide⟩

/-- C10 (amended).  Provided no line of the part leaves a quoted field
open across the line break, a blank input line yields no raw row: later
parts produce one row per non-blank line, part 1 one row per non-blank
line after the header line, and inserting a blank line anywhere in a
later part leaves its rows unchanged. -/
theorem claim10_blank_lines_skipped (h : List String) (lines l1 l2 : List String)
    (hl : ∀ l ∈ lines, lineState l ≠ CsvState.inQuoted)
    (h1 : ∀ l ∈ l1, lineState l ≠ CsvState.inQuoted)
    (h2 : ∀ l ∈ l2, lineState l ≠ CsvState.inQuoted) :
    (partNRows h lines).length = (lines.filter (fun l => l ≠ "")).length ∧
    (part1Rows lines).length = ((lines.drop 1).filter (fun l => l ≠ "")).length ∧
    partNRows h (l1 ++ "" :: l2) = partNRows h (l1 ++ l2) := by
  refine ⟨?_, ?_, ?_⟩
  · unfold partNRows fileRecords
    rw [csvRecs_eq_map lines hl, records_filter]
    simp
  · cases lines with
    | nil => rfl
    | cons l0 ls =>
      unfold part1Rows fileRecords
      rw [csvRecs_eq_map (l0 :: ls) hl]
      simp only [List.map_cons]
      rw [records_filter ls]
      simp
  · unfold partNRows fileRecords
    have hall : ∀ l ∈ l1 ++ "" :: l2, lineState l ≠ CsvState.inQuoted := by
      intro l hmem
      rcases List.mem_append.mp hmem with hm1 | hm2
      · exact h1 l hm1
      · rcases List.mem_cons.mp hm2 with he | hm3
        · subst he; decide
        · exact h2 l hm3
    have hall2 : ∀ l ∈ l1 ++ l2, lineState l ≠ CsvState.inQuoted := by
      intro l hmem
      rcases List.mem_append.mp hmem with hm1 | hm2
      · exact h1 l hm1
      · exact h2 l hm2
    rw [csvRecs_eq_map _ hall, csvRecs_eq_map _ hall2]
    simp [List.filter_append, List.filter_cons, parseCSVLine_empty]

/-- C10 witness at a concrete later part with a blank line. -/
theorem claim10_blank_lines_skipped_witness :
    (partNRows ["No"] ["x", "", "y"]).length =
      ((["x", "", "y"] : List String).filter (fun l => l ≠ "")).length ∧
    (part1Rows ["x", "", "y"]).length =
      (((["x", "", "y"] : List String).drop 1).filter (fun l => l ≠ "")).length ∧
    partNRows ["No"] (["a"] ++ "" :: ["b"]) = partNRows ["No"] (["a"] ++ ["b"]) :=
  claim10_blank_lines_skipped ["No"] ["x", "", "y"] ["a"] ["b"]
    (by decide) (by decide) (by decide)

/-- C8.  Serialization round trip: for every in-memory record list (so for
every run that succeeds), deserializing the exact character stream the
program writes yields the JSON array whose elements are, field for field
and in order, the JSON images of the records.  The fuel argument models
the recursion capacity of the deserializer; the equation holds for every
capacity of at least the record count plus twelve. -/
theorem claim8_serialization_round_trip (f : Nat) (ns : List Nft) :
    jsonLoadChars (f + ns.length + 12) (renderNftsChars ns) = some (nftsToJson ns) := by
  have h := parseVal_renderNfts f ns []
  rw [List.append_nil] at h
  unfold jsonLoadChars
  rw [h]
  rfl

end Genesis
